import Mathlib

/-!
# Verification of the transcript-acquisition engine

Shallow embedding, in Lean 4, of the pure core of the repository
`apps/worker-py`:

* `extractVideoId`  — `YoutubeTranscriptService.extract_video_id`
  (character-identical to `YoutubeDownloader.extract_video_id`),
* `parseVttContent` — `YoutubeTranscriptService._parse_vtt_content`
  (together with `_parse_time_str` and the regex helpers it uses),
* `selectApiTranscript` — the track-selection loop of
  `YoutubeTranscriptService._fetch_with_transcript_api`,
* `selectSubLang`  — the subtitle-language selection loop of
  `YoutubeTranscriptService._fetch_with_ytdlp`,
* `fetchWithTranscriptApi`, `fetchWithYtdlp`, `getTranscript` —
  the two caption tiers and their orchestration, with all network /
  library effects supplied by explicit environments,
* `validateUrl`, `downloadAudio`, `getVideoInfo`, `cleanupOldFiles` —
  the corresponding `YoutubeDownloader` methods.

Python regular expressions are embedded as explicit backtracking
matchers specialised to the concrete patterns of the source; `\d` is
modelled as the ASCII digits (the source only ever feeds ASCII
timestamps to these patterns).  Machine floats of the source are
modelled as rationals.  Python exceptions are modelled with `Except`.
-/

namespace MiMente

/-- Python `str.isspace` / regex `\s` character class (the Unicode
whitespace set used by CPython for `str`). -/
def pyIsSpace (c : Char) : Bool :=
  c == ' ' || c == '\t' || c == '\n' || c == '\r' ||
  c.val == 0x0b || c.val == 0x0c ||
  (0x1c ≤ c.val && c.val ≤ 0x1f) ||
  c.val == 0x85 || c.val == 0xa0 || c.val == 0x1680 ||
  (0x2000 ≤ c.val && c.val ≤ 0x200a) ||
  c.val == 0x2028 || c.val == 0x2029 || c.val == 0x202f ||
  c.val == 0x205f || c.val == 0x3000

/-- The `[0-9A-Za-z_-]` character class of the video-id patterns. -/
def isIdChar (c : Char) : Bool :=
  ('0' ≤ c && c ≤ '9') || ('A' ≤ c && c ≤ 'Z') ||
  ('a' ≤ c && c ≤ 'z') || c == '_' || c == '-'

/-- Match `lit` literally at the head of `l`, returning the rest. -/
def dropLit : List Char → List Char → Option (List Char)
  | [], l => some l
  | _ :: _, [] => none
  | p :: ps, c :: cs => if c == p then dropLit ps cs else none

/-- Match exactly `n` characters of class `[0-9A-Za-z_-]`
(the `{11}` group of the id patterns), returning group and rest. -/
def takeGroup : Nat → List Char → Option (List Char × List Char)
  | 0, l => some ([], l)
  | _ + 1, [] => none
  | n + 1, c :: t =>
    if isIdChar c then (takeGroup n t).map (fun p => (c :: p.1, p.2)) else none

/-- Python's `$` without `re.MULTILINE`: end of string, or just before
a single trailing newline. -/
def dollarEnd : List Char → Bool
  | [] => true
  | c :: t => c == '\n' && t.isEmpty

/-- One attempt, at the current position, of the first id pattern
`(?:v=|/)([0-9A-Za-z_-]{11})(?:[?&]|$)`: group then trailing check
(`?`, `&`, or `$` — which also accepts one trailing newline). -/
def finishP1 (l : List Char) : Option (List Char) :=
  match takeGroup 11 l with
  | none => none
  | some (g, rest) =>
    match rest with
    | c :: t =>
      if c == '?' || c == '&' then some g
      else if dollarEnd (c :: t) then some g else none
    | [] => some g

/-- Try the first id pattern at the current position (head `c`, tail `t`).
The alternation `(?:v=|/)` tries `v=` first, then `/`. -/
def tryMatchP1 (c : Char) (t : List Char) : Option (List Char) :=
  if c == 'v' then
    match t with
    | d :: rest => if d == '=' then finishP1 rest else none
    | [] => none
  else if c == '/' then finishP1 t
  else none

/-- `re.search` of the first id pattern: leftmost position that matches. -/
def searchP1 : List Char → Option (List Char)
  | [] => none
  | c :: t =>
    match tryMatchP1 c t with
    | some g => some g
    | none => searchP1 t

/-- Try a literal-then-group pattern (`youtu\.be/`, `embed/`, `shorts/`,
`live/` followed by `([0-9A-Za-z_-]{11})`) at the current position. -/
def tryMatchLit (lit : List Char) (l : List Char) : Option (List Char) :=
  match dropLit lit l with
  | none => none
  | some rest => (takeGroup 11 rest).map (·.1)

/-- `re.search` of a literal-then-group pattern. -/
def searchLit (lit : List Char) : List Char → Option (List Char)
  | [] => none
  | c :: t =>
    match tryMatchLit lit (c :: t) with
    | some g => some g
    | none => searchLit lit t

/-- `re.match(r'^[0-9A-Za-z_-]{11}$', url)`: eleven id characters from
the start, then `$` (which also accepts one trailing newline). -/
def bareIdMatch (l : List Char) : Bool :=
  match takeGroup 11 l with
  | some (_, rest) => dollarEnd rest
  | none => false

/-- Embeds `YoutubeTranscriptService.extract_video_id` (the
`YoutubeDownloader.extract_video_id` method is character-identical):
the five `re.search` patterns in order, then the bare-id `re.match`,
returning the first capture group found, the whole input for a bare
id, and `None` otherwise.  `if not url` is the empty-string test. -/
def extractVideoId (url : String) : Option String :=
  if url == "" then none
  else
    match searchP1 url.data with
    | some g => some (String.mk g)
    | none =>
      match searchLit "youtu.be/".data url.data with
      | some g => some (String.mk g)
      | none =>
        match searchLit "embed/".data url.data with
        | some g => some (String.mk g)
        | none =>
          match searchLit "shorts/".data url.data with
          | some g => some (String.mk g)
          | none =>
            match searchLit "live/".data url.data with
            | some g => some (String.mk g)
            | none => if bareIdMatch url.data then some url else none

/-- `needle` occurs at the head of `hay` (helper for Python's `in`). -/
def isPre : List Char → List Char → Bool
  | [], _ => true
  | _ :: _, [] => false
  | a :: as, b :: bs => a == b && isPre as bs

/-- Python's substring test `needle in hay`. -/
def containsSub (needle : List Char) : List Char → Bool
  | [] => isPre needle []
  | c :: t => isPre needle (c :: t) || containsSub needle t

/-- Embeds `YoutubeDownloader.validate_url`: the URL is accepted iff it
contains one of four fixed substrings (the embed form is absent). -/
def validateUrl (url : String) : Bool :=
  containsSub "youtube.com/watch".data url.data ||
  containsSub "youtu.be/".data url.data ||
  containsSub "youtube.com/shorts/".data url.data ||
  containsSub "youtube.com/live/".data url.data

/-! ## Caption markup parser (`_parse_vtt_content` and helpers) -/

/-- Line boundaries of Python `str.splitlines`. -/
def isLineBoundary (c : Char) : Bool :=
  c == '\n' || c == '\r' ||
  c.val == 0x0b || c.val == 0x0c ||
  (0x1c ≤ c.val && c.val ≤ 0x1e) ||
  c.val == 0x85 || c.val == 0x2028 || c.val == 0x2029

/-- Python `str.splitlines` (no trailing empty line; `\r\n` is one
boundary); `cur` holds the current line, reversed. -/
def splitLinesGo (cur : List Char) : List Char → List (List Char)
  | [] => if cur.isEmpty then [] else [cur.reverse]
  | '\r' :: '\n' :: t => cur.reverse :: splitLinesGo [] t
  | c :: t =>
    if isLineBoundary c then cur.reverse :: splitLinesGo [] t
    else splitLinesGo (c :: cur) t

def splitLines (l : List Char) : List (List Char) := splitLinesGo [] l

/-- Python `str.strip()`. -/
def pyStrip (l : List Char) : List Char :=
  (((l.dropWhile pyIsSpace).reverse).dropWhile pyIsSpace).reverse

/-- Match exactly `n` ASCII digits, returning them and the rest. -/
def takeDigits : Nat → List Char → Option (List Char × List Char)
  | 0, l => some ([], l)
  | _ + 1, [] => none
  | n + 1, c :: t =>
    if c.isDigit then (takeDigits n t).map (fun p => (c :: p.1, p.2)) else none

/-- Match one expected character. -/
def expectChar (c : Char) : List Char → Option (List Char)
  | [] => none
  | x :: t => if x == c then some t else none

/-- One variant of the timestamp token `\d{1,2}:?\d{2}:\d{2}[.,]\d{3}`:
`firstCount` digits, a colon iff `withColon`, then the fixed
`\d{2}:\d{2}[.,]\d{3}` tail.  Returns the matched text and the rest. -/
def timeTokCore (firstCount : Nat) (withColon : Bool) (l : List Char) :
    Option (List Char × List Char) := do
  let (d1, r1) ← takeDigits firstCount l
  let (colPart, r2) ←
    if withColon then
      match r1 with
      | c :: t => if c == ':' then some ([':'], t) else none
      | [] => none
    else some (([] : List Char), r1)
  let (d2, r3) ← takeDigits 2 r2
  let r4 ← expectChar ':' r3
  let (d3, r5) ← takeDigits 2 r4
  let (sep, r6) ←
    match r5 with
    | c :: t => if c == '.' || c == ',' then some ([c], t) else none
    | [] => none
  let (d4, r7) ← takeDigits 3 r6
  return (d1 ++ colPart ++ d2 ++ [':'] ++ d3 ++ sep ++ d4, r7)

/-- The timestamp token with Python's backtracking order for the greedy
`\d{1,2}` and `:?`: two digits with colon, two without, one with, one
without. -/
def timeTokFirst (l : List Char) : Option (List Char × List Char) :=
  (timeTokCore 2 true l).orElse fun _ =>
  (timeTokCore 2 false l).orElse fun _ =>
  (timeTokCore 1 true l).orElse fun _ =>
  timeTokCore 1 false l

/-- After a candidate first group, match `\s*-->\s*` and the second
timestamp group. -/
def afterG1 (g1 r : List Char) : Option (List Char × List Char) := do
  let r1 := r.dropWhile pyIsSpace
  let r2 ← dropLit "-->".data r1
  let r3 := r2.dropWhile pyIsSpace
  let (g2, _) ← timeTokFirst r3
  return (g1, g2)

/-- Try the full cue-header pattern
`(\d{1,2}:?\d{2}:\d{2}[.,]\d{3})\s*-->\s*(\d{1,2}:?\d{2}:\d{2}[.,]\d{3})`
at the current position, backtracking over the first group's variants. -/
def tryTimeAt (l : List Char) : Option (List Char × List Char) :=
  ((timeTokCore 2 true l).bind fun p => afterG1 p.1 p.2).orElse fun _ =>
  ((timeTokCore 2 false l).bind fun p => afterG1 p.1 p.2).orElse fun _ =>
  ((timeTokCore 1 true l).bind fun p => afterG1 p.1 p.2).orElse fun _ =>
  (timeTokCore 1 false l).bind fun p => afterG1 p.1 p.2

/-- `time_pattern.search`: leftmost match, returning the two groups. -/
def timeSearch : List Char → Option (List Char × List Char)
  | [] => none
  | c :: t =>
    match tryTimeAt (c :: t) with
    | some g => some g
    | none => timeSearch t

/-- Python `str.split(':')` (keeps empty parts). -/
def splitColon : List Char → List (List Char)
  | [] => [[]]
  | c :: t =>
    let ps := splitColon t
    if c == ':' then [] :: ps
    else
      match ps with
      | [] => [[c]]
      | p :: rest => (c :: p) :: rest

/-- Python `int(s)` on the digit strings reachable here: non-empty all
digits (an optional sign is accepted), otherwise `ValueError`. -/
def pyInt (l : List Char) : Option Int :=
  let core : List Char → Option Nat := fun ds =>
    if ds.isEmpty || !ds.all Char.isDigit then none
    else some (ds.foldl (fun a c => a * 10 + (c.toNat - '0'.toNat)) 0)
  match l with
  | '-' :: t => (core t).map (fun n => -(n : Int))
  | '+' :: t => (core t).map (fun n => (n : Int))
  | _ => (core l).map (fun n => (n : Int))

/-- Exact rational addition, written with `mkRat` over the numerator
and denominator fields so that it evaluates inside the kernel (the
ring operations of `ℚ` do not unfold there). -/
def ratAdd (a b : ℚ) : ℚ := mkRat (a.num * b.den + b.num * a.den) (a.den * b.den)

/-- Exact addition of an integer to a rational, via `mkRat`. -/
def ratAddInt (q : ℚ) (n : Int) : ℚ := mkRat (q.num + n * q.den) q.den

/-- Python `float(s)` on the decimal strings reachable here:
`digits`, `digits.digits`, `digits.` or `.digits` with an optional
sign, otherwise `ValueError`.  The value `intpart.frac` is the exact
rational `(intpart·10^k + frac) / 10^k`. -/
def pyFloat (l : List Char) : Option ℚ :=
  let digitsNat : List Char → Nat := fun ds =>
    ds.foldl (fun a c => a * 10 + (c.toNat - '0'.toNat)) 0
  let core : List Char → Option ℚ := fun s =>
    let intPart := s.takeWhile Char.isDigit
    let rest := s.dropWhile Char.isDigit
    match rest with
    | [] => if intPart.isEmpty then none else some (mkRat (digitsNat intPart) 1)
    | '.' :: frac =>
      if !frac.all Char.isDigit then none
      else if intPart.isEmpty && frac.isEmpty then none
      else some (mkRat (digitsNat intPart * 10 ^ frac.length + digitsNat frac)
        (10 ^ frac.length))
    | _ => none
  match l with
  | '-' :: t => (core t).map (fun q => mkRat (-q.num) q.den)
  | '+' :: t => core t
  | _ => core l

/-- Embeds `_parse_time_str`: split on `:`; three parts give
`h*3600 + m*60 + s`, two give `m*60 + s`, otherwise `float` of the
whole; any conversion error yields `0.0`. -/
def parseTimeStr (l : List Char) : ℚ :=
  match splitColon l with
  | [h, m, s] =>
    match pyInt h, pyInt m, pyFloat s with
    | some hv, some mv, some sv => ratAddInt sv (hv * 3600 + mv * 60)
    | _, _, _ => 0
  | [m, s] =>
    match pyInt m, pyFloat s with
    | some mv, some sv => ratAddInt sv (mv * 60)
    | _, _ => 0
  | _ => (pyFloat l).getD 0

/-- `start_str.replace(',', '.')`. -/
def replComma (l : List Char) : List Char :=
  l.map (fun c => if c == ',' then '.' else c)

/-- `re.sub(r'<[^>]+>', '', s)` as a one-pass machine.  `none` means
"outside a candidate tag"; `some pend` means a `<` was seen and `pend`
(reversed, `<` included) is what must be emitted literally if the
candidate never closes.  A `<` immediately followed by `>` does not
match (`[^>]+` needs at least one character). -/
def stripTagsGo : Option (List Char) → List Char → List Char
  | none, [] => []
  | none, '<' :: t => stripTagsGo (some ['<']) t
  | none, c :: t => c :: stripTagsGo none t
  | some pend, [] => pend.reverse
  | some pend, '>' :: t =>
    if pend == ['<'] then '<' :: '>' :: stripTagsGo none t
    else stripTagsGo none t
  | some pend, c :: t => stripTagsGo (some (c :: pend)) t

def stripTags (l : List Char) : List Char := stripTagsGo none l

/-- One attempt of the inline-timestamp pattern
`\d{1,2}:\d{2}:\d{2}[.,]\d{3}` (mandatory colons), with the greedy
two-digit variant first; returns the rest after the match. -/
def tryInlineCore (firstCount : Nat) (l : List Char) : Option (List Char) := do
  let (_, r1) ← takeDigits firstCount l
  let r2 ← expectChar ':' r1
  let (_, r3) ← takeDigits 2 r2
  let r4 ← expectChar ':' r3
  let (_, r5) ← takeDigits 2 r4
  let r6 ←
    match r5 with
    | c :: t => if c == '.' || c == ',' then some t else none
    | [] => none
  let (_, r7) ← takeDigits 3 r6
  return r7

def tryInline (l : List Char) : Option (List Char) :=
  (tryInlineCore 2 l).orElse fun _ => tryInlineCore 1 l

/-- `re.sub` of the inline-timestamp pattern with `''`: non-overlapping
leftmost matches are removed.  The fuel (one unit per input position or
match) is an embedding artifact: a match always consumes at least ten
characters, so `fuel = l.length` never runs out. -/
def subInlineGo : Nat → List Char → List Char
  | 0, l => l
  | _ + 1, [] => []
  | fuel + 1, c :: t =>
    match tryInline (c :: t) with
    | some rest => subInlineGo fuel rest
    | none => c :: subInlineGo fuel t

def subInline (l : List Char) : List Char := subInlineGo l.length l

/-- `re.sub(r'\s+', ' ', s)`: each whitespace run becomes one space.
The flag records whether the previous character was inside a run. -/
def collapseWsGo : Bool → List Char → List Char
  | _, [] => []
  | inRun, c :: t =>
    if pyIsSpace c then
      if inRun then collapseWsGo true t else ' ' :: collapseWsGo true t
    else c :: collapseWsGo false t

def collapseWs (l : List Char) : List Char := collapseWsGo false l

/-- The cleaning pipeline applied to one (already stripped) text line:
strip tags then `strip()`, remove inline timestamps then `strip()`,
collapse whitespace then `strip()`. -/
def cleanLine (l : List Char) : List Char :=
  pyStrip (collapseWs (pyStrip (subInline (pyStrip (stripTags l)))))

/-- Embeds `TranscriptionSegment` of `whisper_transcriber.py`
(the Python field `end` is a Lean keyword and is called `stop` here). -/
structure TranscriptionSegment where
  start : ℚ
  stop : ℚ
  text : String
  deriving Repr, DecidableEq

/-- Embeds `TranscriptionResult` of `whisper_transcriber.py`. -/
structure TranscriptionResult where
  text : String
  segments : List TranscriptionSegment
  language : String
  duration : ℚ
  deriving Repr, DecidableEq

/-- The inner text-accumulation loop of `_parse_vtt_content`: consume
lines until a blank line (consumed) or a new cue header (not consumed),
collecting the cleaned non-empty, non-`&nbsp;` texts.  Returns the
collected texts and the remaining lines.  (`next_line` is the stripped
line; the cue-header test is `time_pattern.search` on it.) -/
def collectText : List (List Char) → List (List Char) × List (List Char)
  | [] => ([], [])
  | line :: rest =>
    if (pyStrip line).isEmpty then ([], rest)
    else if (timeSearch (pyStrip line)).isSome then ([], line :: rest)
    else if (cleanLine (pyStrip line)).isEmpty = false ∧
        cleanLine (pyStrip line) ≠ "&nbsp;".data then
      (cleanLine (pyStrip line) :: (collectText rest).1, (collectText rest).2)
    else collectText rest

/-- The dedup guard `if not segments or segments[-1].text != segment_text`
on the reversed accumulator (head = last appended segment). -/
def keepNew (accSegs : List TranscriptionSegment) (segText : String) : Bool :=
  match accSegs with
  | [] => true
  | s :: _ => s.text != segText

/-- The outer `while i < len(lines)` loop of `_parse_vtt_content`.
Accumulators are kept reversed; the fuel (one unit per consumed header
or skipped line) is an embedding artifact: every step consumes at least
one line, so `fuel = lines.length` never runs out. -/
def parseAuxGo :
    Nat → List (List Char) → List TranscriptionSegment → List (List Char) →
    List TranscriptionSegment × List (List Char)
  | 0, _, accSegs, accParts => (accSegs.reverse, accParts.reverse)
  | _ + 1, [], accSegs, accParts => (accSegs.reverse, accParts.reverse)
  | fuel + 1, line :: rest, accSegs, accParts =>
    match timeSearch (pyStrip line) with
    | none => parseAuxGo fuel rest accSegs accParts
    | some (g1, g2) =>
      match collectText rest with
      | (texts, rem) =>
        if texts.isEmpty then parseAuxGo fuel rem accSegs accParts
        else if keepNew accSegs (String.mk (joinSpace texts)) then
          parseAuxGo fuel rem
            ({ start := parseTimeStr (replComma g1)
               stop := parseTimeStr (replComma g2)
               text := String.mk (joinSpace texts) } :: accSegs)
            (joinSpace texts :: accParts)
        else parseAuxGo fuel rem accSegs accParts
where
  /-- `" ".join(text_acc)`. -/
  joinSpace : List (List Char) → List Char
    | [] => []
    | [t] => t
    | t :: ts => t ++ ' ' :: joinSpace ts

/-- The final-pass consecutive dedup of `full_text_parts`
(`unique_parts` in the source). -/
def dedupAdj (parts : List (List Char)) : List (List Char) :=
  go [] parts
where
  go (acc : List (List Char)) : List (List Char) → List (List Char)
    | [] => acc.reverse
    | p :: t =>
      match acc with
      | [] => go [p] t
      | a :: _ => if a != p then go (p :: acc) t else go acc t

/-- Embeds `_parse_vtt_content`: split into lines, run the cue loop,
return `None` when no segment survives, otherwise the result with the
joined deduplicated text and `duration = segments[-1].end`. -/
def parseVttContent (content : String) (langCode : String) :
    Option TranscriptionResult :=
  if (parseAuxGo (splitLines content.data).length
      (splitLines content.data) [] []).1.isEmpty then none
  else some
    { text := String.mk (parseAuxGo.joinSpace (dedupAdj
        (parseAuxGo (splitLines content.data).length
          (splitLines content.data) [] []).2))
      segments := (parseAuxGo (splitLines content.data).length
        (splitLines content.data) [] []).1
      language := langCode
      duration := ((parseAuxGo (splitLines content.data).length
          (splitLines content.data) [] []).1.getLastD ⟨0, 0, ""⟩).stop }

/-! ## Tier A: the structured transcript API (`_fetch_with_transcript_api`) -/

/-- A caption track as listed by the transcript API: language code and
whether it is auto-generated. -/
structure ApiTrack where
  languageCode : String
  isGenerated : Bool
  deriving Repr, DecidableEq

/-- Models `TranscriptList.find_manually_created_transcript([lang])` of
the `youtube_transcript_api` library: the first manually created track
whose language code is `lang`, else `NoTranscriptFound` (here `none`). -/
def findManuallyCreated (tl : List ApiTrack) (lang : String) : Option ApiTrack :=
  tl.find? (fun t => !t.isGenerated && t.languageCode == lang)

/-- Models `TranscriptList.find_generated_transcript([lang])`. -/
def findGenerated (tl : List ApiTrack) (lang : String) : Option ApiTrack :=
  tl.find? (fun t => t.isGenerated && t.languageCode == lang)

/-- Models `TranscriptList.find_transcript(languages)`: for each
language in order, a manually created track first, then a generated
one. -/
def findTranscriptAny (tl : List ApiTrack) (langs : List String) : Option ApiTrack :=
  langs.findSome? fun lang =>
    (findManuallyCreated tl lang).orElse fun _ => findGenerated tl lang

/-- The first loop of `_fetch_with_transcript_api`: scan `languages` in
order for a manually created track, swallowing `NoTranscriptFound`. -/
def scanManual (tl : List ApiTrack) : List String → Option ApiTrack
  | [] => none
  | lang :: rest =>
    match findManuallyCreated tl lang with
    | some t => some t
    | none => scanManual tl rest

/-- The second loop: scan `languages` again for a generated track. -/
def scanGenerated (tl : List ApiTrack) : List String → Option ApiTrack
  | [] => none
  | lang :: rest =>
    match findGenerated tl lang with
    | some t => some t
    | none => scanGenerated tl rest

/-- Embeds the Tier A selection policy (source lines 200–233): whole
manual scan first, then the generated scan, then the
`find_transcript` fallback. -/
def selectApiTranscript (tl : List ApiTrack) (languages : List String) :
    Option ApiTrack :=
  match scanManual tl languages with
  | some t => some t
  | none =>
    match scanGenerated tl languages with
    | some t => some t
    | none => findTranscriptAny tl languages

/-- Python exceptions relevant to the caption layer. -/
inductive PyErr where
  | transcriptsDisabled
  | videoUnavailable
  | noTranscriptFound
  | netError
  | other
  deriving Repr, DecidableEq

/-- One raw item of `transcript.fetch()`. -/
structure RawItem where
  text : String
  start : ℚ
  duration : ℚ
  deriving Repr, DecidableEq

/-- Environment of Tier A: the outcomes of the two effectful calls. -/
structure ApiEnv where
  listTranscripts : Except PyErr (List ApiTrack)
  fetchData : Except PyErr (List RawItem)

/-- A `try: ... except ...: return None` wrapper: every raised
exception is converted to a `None` result (the source handles
`TranscriptsDisabled`, `VideoUnavailable`, `NoTranscriptFound` and a
final catch-all `Exception`, all returning `None`). -/
def swallow (b : Except PyErr (Option TranscriptionResult)) :
    Except PyErr (Option TranscriptionResult) :=
  match b with
  | .ok v => .ok v
  | .error _ => .ok none

/-- The conversion loop of `_fetch_with_transcript_api`: strip each
item's text (newlines replaced by spaces), drop empty ones, build
segments `[start, start+duration]`. -/
def convertApiItems (items : List RawItem) :
    List TranscriptionSegment × List (List Char) :=
  match items with
  | [] => ([], [])
  | item :: rest =>
    let text := pyStrip (replNl item.text.data)
    let (segs, parts) := convertApiItems rest
    if text.isEmpty then (segs, parts)
    else
      (⟨item.start, ratAdd item.start item.duration, String.mk text⟩ :: segs,
       text :: parts)
where
  /-- `item.get('text', '').replace('\n', ' ')`. -/
  replNl (l : List Char) : List Char :=
    l.map (fun c => if c == '\n' then ' ' else c)

/-- Embeds `_fetch_with_transcript_api`: list tracks (inner try
returning `None` on any error), select per `selectApiTranscript`,
fetch and convert; the outer `try` swallows every exception. -/
def fetchWithTranscriptApi (env : ApiEnv) (languages : List String) :
    Except PyErr (Option TranscriptionResult) :=
  swallow
    (match env.listTranscripts with
     | .error _ => .ok none
     | .ok tl =>
       match selectApiTranscript tl languages with
       | none => .ok none
       | some tr => do
         let data ← env.fetchData
         let (segments, parts) := convertApiItems data
         if segments.isEmpty then pure none
         else
           pure (some
             { text := String.mk (parseAuxGo.joinSpace parts)
               segments := segments
               language := tr.languageCode
               duration := (segments.getLastD ⟨0, 0, ""⟩).stop }))

/-! ## Tier B: the extraction tool (`_fetch_with_ytdlp`) -/

/-- One subtitle format descriptor (`fmt.get('ext')`, `fmt.get('url')`). -/
structure SubFmt where
  ext : String
  url : Option String
  deriving Repr, DecidableEq

/-- The info dict returned by the extraction tool. -/
structure YtInfo where
  subtitles : List (String × List SubFmt)
  automaticCaptions : List (String × List SubFmt)
  deriving Repr

/-- Environment of Tier B. -/
structure YtdlpEnv where
  extractInfo : Except PyErr (Option YtInfo)
  fetchUrl : Except PyErr String

/-- Association-list lookup (Python dict access by key). -/
def lookupD {α : Type} (d : List (String × α)) (k : String) : Option α :=
  (d.find? (fun p => p.1 == k)).map (·.2)

/-- `{**subtitles, **auto_subs}`: keys of the first dict in order with
overridden values, then the new keys of the second in order. -/
def mergeDicts {α : Type} (a b : List (String × α)) : List (String × α) :=
  (a.map (fun p => (p.1, (lookupD b p.1).getD p.2))) ++
  b.filter (fun p => (lookupD a p.1).isNone)

/-- Python `available_lang.startswith(lang)`. -/
def pyStartsWith (s pre : String) : Bool := isPre pre.data s.data

/-- The inner loop of the Tier B language selection (source lines
362–372): for each preferred language, an exact key match, else the
first available key that starts with it. -/
def findPreferredLang (avail : List String) : List String → Option String
  | [] => none
  | lang :: rest =>
    if avail.contains lang then some lang
    else
      match avail.find? (fun a => pyStartsWith a lang) with
      | some a => some a
      | none => findPreferredLang avail rest

/-- Embeds the Tier B track selection (source lines 360–377): the
preferred-language loop, then `list(available_subs.keys())[0]`. -/
def selectSubLang (languages avail : List String) : Option String :=
  match findPreferredLang avail languages with
  | some l => some l
  | none => avail.head?

/-- `sub_url` choice: the first format with `ext == 'vtt'`, and if that
yields no (truthy) URL, the first format's URL.  Python truthiness
makes an empty string count as no URL. -/
def chooseSubUrl (subInfo : List SubFmt) : Option String :=
  let truthy : Option String → Option String := fun u =>
    match u with
    | some s => if s == "" then none else some s
    | none => none
  match subInfo.find? (fun f => f.ext == "vtt") with
  | some f =>
    match truthy f.url with
    | some u => some u
    | none => (subInfo.head?).bind (fun f0 => truthy f0.url)
  | none => (subInfo.head?).bind (fun f0 => truthy f0.url)

/-- Embeds `_fetch_with_ytdlp` (its temporary-file bookkeeping, which
touches no value returned, is not modelled): extract info, merge the
two subtitle dicts, select a language, choose a URL, download, parse;
the whole body sits in a `try` whose handler returns `None`. -/
def fetchWithYtdlp (env : YtdlpEnv) (languages : List String) :
    Except PyErr (Option TranscriptionResult) :=
  swallow
    (match env.extractInfo with
     | .error e => .error e
     | .ok none => .ok none
     | .ok (some info) =>
       let avail := mergeDicts info.subtitles info.automaticCaptions
       if avail.isEmpty then .ok none
       else
         match selectSubLang languages (avail.map (·.1)) with
         | none => .ok none
         | some selLang =>
           let subInfo := (lookupD avail selLang).getD []
           if subInfo.isEmpty then .ok none
           else
             match chooseSubUrl subInfo with
             | none => .ok none
             | some _ => do
               let content ← env.fetchUrl
               if content == "" then pure none
               else pure (parseVttContent content selLang))

/-! ## The orchestrating `get_transcript` -/

structure ServiceEnv where
  api : ApiEnv
  ytdlp : YtdlpEnv

/-- Embeds `YoutubeTranscriptService.get_transcript`: default language
list, id extraction, Tier A, then Tier B. -/
def getTranscript (env : ServiceEnv) (url : String)
    (languages : Option (List String)) :
    Except PyErr (Option TranscriptionResult) :=
  match extractVideoId url with
  | none => .ok none
  | some _ => do
    let r1 ← fetchWithTranscriptApi env.api
      (languages.getD ["es", "en", "es-419", "en-US"])
    match r1 with
    | some r => pure (some r)
    | none =>
      fetchWithYtdlp env.ytdlp (languages.getD ["es", "en", "es-419", "en-US"])

/-! ## The audio downloader (`youtube_downloader.py`) -/

/-- The distinct failure kinds `download_audio` / `get_video_info` can
raise: `invalidUrl` is the `ValueError` of the URL check, `noInfo` the
`RuntimeError` for a missing info dict, `fileNotFound` the
`FileNotFoundError`, `emptyFile` the `RuntimeError` for a zero-byte
file, `downloadNet` the `RuntimeError` wrapping a `yt_dlp`
`DownloadError`, and `otherErr` any other re-raised exception. -/
inductive DlErr where
  | invalidUrl
  | noInfo
  | fileNotFound
  | emptyFile
  | downloadNet
  | otherErr
  deriving Repr, DecidableEq

/-- Exceptions the `extract_info` call may raise inside
`download_audio`'s `try` block. -/
inductive DlPyErr where
  | downloadError
  | other
  deriving Repr, DecidableEq

/-- Video metadata as far as the downloader's return value uses it. -/
structure DlInfo where
  id : Option String
  title : Option String
  duration : Option ℚ
  channel : Option String
  deriving Repr, DecidableEq

/-- Environment of one `download_audio` run: the `extract_info`
outcome, whether `<output>.mp3` exists, the other files the glob would
find, and the size of the located file. -/
structure DlEnv where
  infoOutcome : Except DlPyErr (Option DlInfo)
  mp3Exists : Bool
  globFiles : List String
  fileSize : Nat

/-- Successful result of `download_audio`. -/
structure DlOk where
  filePath : String
  videoInfo : DlInfo
  fileSize : Nat
  deriving Repr, DecidableEq

/-- Embeds `YoutubeDownloader.download_audio`.  The second component
records whether the located audio file still exists on disk when the
call returns: the zero-byte branch unlinks it before raising.  File
names stand in for the uuid-based paths. -/
def downloadAudio (env : DlEnv) (url : String) : Except DlErr DlOk × Bool :=
  if !validateUrl url then (.error .invalidUrl, false)
  else
    match env.infoOutcome with
    | .error .downloadError => (.error .downloadNet, false)
    | .error .other => (.error .otherErr, false)
    | .ok none => (.error .noInfo, false)
    | .ok (some info) =>
      let audioFile : Option String :=
        if env.mp3Exists then some "audio.mp3" else env.globFiles.head?
      match audioFile with
      | none => (.error .fileNotFound, false)
      | some f =>
        if env.fileSize == 0 then (.error .emptyFile, false)
        else (.ok ⟨f, info, env.fileSize⟩, true)

/-- Embeds `YoutubeDownloader.get_video_info`: the URL check raises
`invalidUrl`; an `extract_info` exception is re-raised; a missing info
dict raises (`ValueError`, modelled `noInfo`); otherwise the projected
info is returned. -/
def getVideoInfo (env : Except DlPyErr (Option DlInfo)) (url : String) :
    Except DlErr DlInfo :=
  if !validateUrl url then .error .invalidUrl
  else
    match env with
    | .error .downloadError => .error .downloadNet
    | .error .other => .error .otherErr
    | .ok none => .error .noInfo
    | .ok (some info) => .ok info

/-- One file of the working directory: name and modification time in
seconds (machine floats modelled as integers suffice for the sweep's
comparison). -/
structure TmpFile where
  name : String
  mtime : Int
  deriving Repr, DecidableEq

/-- Embeds `YoutubeDownloader.cleanup_old_files`: delete every file
whose age `now - mtime` is strictly greater than
`max_age_hours * 3600`; returns the surviving files and the deleted
count. -/
def cleanupOldFiles (now : Int) (maxAgeHours : Int) :
    List TmpFile → List TmpFile × Nat
  | [] => ([], 0)
  | f :: rest =>
    let (rem, cnt) := cleanupOldFiles now maxAgeHours rest
    if now - f.mtime > maxAgeHours * 3600 then (rem, cnt + 1)
    else (f :: rem, cnt)

/-! ## Shared lemmas -/

theorem cleanupOldFiles_characterize (now maxAgeHours : Int) :
    ∀ files : List TmpFile,
      cleanupOldFiles now maxAgeHours files
        = (files.filter (fun f => !decide (now - f.mtime > maxAgeHours * 3600)),
           (files.filter (fun f => decide (now - f.mtime > maxAgeHours * 3600))).length)
  | [] => rfl
  | f :: rest => by
    have ih := cleanupOldFiles_characterize now maxAgeHours rest
    simp only [cleanupOldFiles, ih, List.filter_cons]
    by_cases h : now - f.mtime > maxAgeHours * 3600
    · rw [decide_eq_true h]; simp; omega
    · rw [decide_eq_false h]; simp; omega

/-! ## C3: the age-based sweep -/

/-- C3 counterexample: with `maxAge = 0` a file whose modification time
equals the scan time has age `0`, which is not strictly greater than
`0`, so it survives the sweep — the claim that every file is deleted
regardless of its modification time fails. -/
theorem cleanupOldFiles_zero_counterexample :
    cleanupOldFiles 100 0 [{ name := "a", mtime := 100 }]
      = ([{ name := "a", mtime := 100 }], 0) ∧
    (cleanupOldFiles 100 0 [{ name := "a", mtime := 100 }]).1 ≠ [] := by
  constructor
  · rfl
  · decide

/-- C3 (amended): the sweep deletes exactly the files whose age
`now - mtime` is strictly greater than `maxAgeHours * 3600` seconds
(so `maxAge = 0` deletes exactly the files modified strictly before the
scan instant, and `maxAge = 24` deletes exactly those older than 24
hours), keeps exactly the others, and returns the number of deleted
files. -/
theorem cleanupOldFiles_sweep (now maxAgeHours : Int) (files : List TmpFile) :
    (cleanupOldFiles now maxAgeHours files).1
      = files.filter (fun f => !decide (now - f.mtime > maxAgeHours * 3600)) ∧
    (cleanupOldFiles now maxAgeHours files).2
      = (files.filter (fun f => decide (now - f.mtime > maxAgeHours * 3600))).length := by
  rw [cleanupOldFiles_characterize now maxAgeHours files]
  exact ⟨rfl, rfl⟩

/-! ## C4: zero-byte downloads -/

/-- C4: whenever the located audio file has size zero, `download_audio`
fails with the empty-file kind — a constructor distinct from the
network-level `downloadNet` kind — and the file is removed before the
failure is raised (the second component, "file still on disk", is
`false`). -/
theorem downloadAudio_empty_file (env : DlEnv) (url : String) (info : DlInfo)
    (hurl : validateUrl url = true)
    (hinfo : env.infoOutcome = .ok (some info))
    (hfile : env.mp3Exists = true ∨ env.globFiles ≠ [])
    (hsize : env.fileSize = 0) :
    downloadAudio env url = (.error .emptyFile, false) ∧
    (DlErr.emptyFile ≠ DlErr.downloadNet) := by
  refine ⟨?_, by decide⟩
  unfold downloadAudio
  rw [hurl, hinfo]
  rcases hfile with hmp3 | hglob
  · simp [hmp3, hsize]
  · match hg : env.globFiles with
    | [] => exact absurd hg hglob
    | f :: fs => cases hmp3 : env.mp3Exists <;> simp [hg, hsize]

theorem downloadAudio_empty_file_witness :
    downloadAudio
        { infoOutcome := .ok (some { id := some "dQw4w9WgXcQ", title := some "t",
                                     duration := none, channel := none })
          mp3Exists := true, globFiles := [], fileSize := 0 }
        "https://www.youtube.com/watch?v=dQw4w9WgXcQ"
      = (.error .emptyFile, false) ∧
    (DlErr.emptyFile ≠ DlErr.downloadNet) :=
  downloadAudio_empty_file _ _
    { id := some "dQw4w9WgXcQ", title := some "t", duration := none, channel := none }
    (by decide) rfl (Or.inl rfl) rfl

/-! ## C7: Tier B language selection -/

/-- The selection policy as the claim states it: first the whole
preferred list is scanned for an exact match, only then for a
regional-variant match, and only then the first available track. -/
def claimedTierBSelect (languages avail : List String) : Option String :=
  match languages.find? (fun l => avail.contains l) with
  | some l => some l
  | none =>
    match languages.findSome? (fun l => avail.find? (fun a => pyStartsWith a l)) with
    | some a => some a
    | none => avail.head?

/-- The policy the code implements: for each preferred language in
order, an exact match, else the first key starting with it; the next
preferred language is only consulted if the current one yields
nothing; else the first available track. -/
def amendedTierBSelect (languages avail : List String) : Option String :=
  match languages.findSome? (fun l =>
      if avail.contains l then some l
      else avail.find? (fun a => pyStartsWith a l)) with
  | some x => some x
  | none => avail.head?

/-- C7 counterexample: with preferred languages `["es", "en"]` and
available tracks `["es-419", "en"]` the code selects the regional
variant `"es-419"` for `"es"` even though an exact match `"en"` exists
later in the list, contradicting the claimed exact-before-variant
policy. -/
theorem tierB_selection_counterexample :
    selectSubLang ["es", "en"] ["es-419", "en"] = some "es-419" ∧
    claimedTierBSelect ["es", "en"] ["es-419", "en"] = some "en" ∧
    some ("es-419" : String) ≠ some "en" := by
  refine ⟨by decide, by decide, by decide⟩

theorem findPreferredLang_eq_findSome (avail : List String) :
    ∀ languages : List String,
      findPreferredLang avail languages
        = languages.findSome? (fun l =>
            if avail.contains l then some l
            else avail.find? (fun a => pyStartsWith a l))
  | [] => rfl
  | lang :: rest => by
    rw [List.findSome?_cons]
    unfold findPreferredLang
    by_cases h : avail.contains lang
    · rw [if_pos h, if_pos h]
    · rw [if_neg h, if_neg h]
      match hf : avail.find? (fun a => pyStartsWith a lang) with
      | some a => rfl
      | none => exact findPreferredLang_eq_findSome avail rest

/-- C7 (amended): the Tier B selection interleaves exact and
regional-variant matching per preferred language: for each language in
order it takes an exact key match, else the first available key
starting with that language, moving on only if neither exists; if no
preferred language yields a track it takes the first available key. -/
theorem tierB_selection_amended (languages avail : List String) :
    selectSubLang languages avail = amendedTierBSelect languages avail := by
  unfold selectSubLang amendedTierBSelect
  rw [findPreferredLang_eq_findSome]

/-! ## C1: Tier A manual-before-auto selection -/

theorem scanManual_isGenerated_false (tl : List ApiTrack) :
    ∀ langs : List String, ∀ t, scanManual tl langs = some t →
      t.isGenerated = false
  | [], _, h => by simp [scanManual] at h
  | lang :: rest, t, h => by
    unfold scanManual at h
    match hf : findManuallyCreated tl lang with
    | some u =>
      rw [hf] at h
      have := List.find?_some hf
      simp only [Bool.and_eq_true, Bool.not_eq_true'] at this
      cases h
      exact this.1
    | none =>
      rw [hf] at h
      exact scanManual_isGenerated_false tl rest t h

theorem scanManual_isSome (tl : List ApiTrack) :
    ∀ langs : List String, (∃ l ∈ langs, (findManuallyCreated tl l).isSome) →
      (scanManual tl langs).isSome
  | [], h => by simp at h
  | lang :: rest, h => by
    unfold scanManual
    match hf : findManuallyCreated tl lang with
    | some u => simp
    | none =>
      rcases h with ⟨l, hl, hsome⟩
      rcases List.mem_cons.mp hl with rfl | hmem
      · rw [hf] at hsome; simp at hsome
      · exact scanManual_isSome tl rest ⟨l, hmem, hsome⟩

theorem scanManual_eq_none (tl : List ApiTrack) :
    ∀ langs : List String, (∀ l ∈ langs, findManuallyCreated tl l = none) →
      scanManual tl langs = none
  | [], _ => rfl
  | lang :: rest, h => by
    unfold scanManual
    rw [h lang (List.mem_cons_self lang rest)]
    exact scanManual_eq_none tl rest (fun l hl => h l (List.mem_cons_of_mem _ hl))

/-- C1: in the Tier A selection the whole preferred-language list is
scanned for a manually created track before any auto-generated track is
considered: if a manual track exists for some language of the list the
selection returns a manual track (so it beats every auto-generated
track, even one whose language appears earlier in the list), and only
when no manual track matches does the selection fall through to the
generated-track scan and then to the any-track fallback. -/
theorem tierA_manual_over_generated (tl : List ApiTrack) (languages : List String) :
    ((∃ l ∈ languages, (findManuallyCreated tl l).isSome) →
      ∃ t, selectApiTranscript tl languages = some t ∧ t.isGenerated = false) ∧
    ((∀ l ∈ languages, findManuallyCreated tl l = none) →
      selectApiTranscript tl languages =
        match scanGenerated tl languages with
        | some t => some t
        | none => findTranscriptAny tl languages) := by
  constructor
  · intro hex
    have hs := scanManual_isSome tl languages hex
    match hm : scanManual tl languages with
    | none => rw [hm] at hs; simp at hs
    | some t =>
      refine ⟨t, ?_, scanManual_isGenerated_false tl languages t hm⟩
      unfold selectApiTranscript
      rw [hm]
  · intro hnone
    unfold selectApiTranscript
    rw [scanManual_eq_none tl languages hnone]

/-- Witness for C1: the spec's own example — preferred list
`["es", "en"]`, an auto-generated `"es"` track and a manual `"en"`
track; the manual track wins. -/
theorem tierA_manual_over_generated_witness :
    ∃ t, selectApiTranscript
        [{ languageCode := "es", isGenerated := true },
         { languageCode := "en", isGenerated := false }] ["es", "en"]
      = some t ∧ t.isGenerated = false :=
  (tierA_manual_over_generated _ _).1 ⟨"en", by decide, by decide⟩

/-! ## C2: the caption layer never raises -/

theorem swallow_ok (b : Except PyErr (Option TranscriptionResult)) :
    ∃ o, swallow b = .ok o := by
  cases b with
  | ok v => exact ⟨v, rfl⟩
  | error e => exact ⟨none, rfl⟩

theorem fetchWithTranscriptApi_ok (env : ApiEnv) (langs : List String) :
    ∃ o, fetchWithTranscriptApi env langs = .ok o :=
  swallow_ok _

theorem fetchWithYtdlp_ok (env : YtdlpEnv) (langs : List String) :
    ∃ o, fetchWithYtdlp env langs = .ok o :=
  swallow_ok _

/-- C2: `get_transcript` never raises: for every environment (outcomes
of the listing, fetching, extraction and download calls, including
every exception they can raise), every URL and every language list, it
returns `ok` — either a result or `None`; in particular when both
tiers' entry calls raise, the failures are swallowed and the result is
`None`, so the caller can fall back to download plus recognition. -/
theorem getTranscript_never_raises (env : ServiceEnv) (url : String)
    (languages : Option (List String)) :
    (∃ o, getTranscript env url languages = .ok o) ∧
    (∀ e e', env.api.listTranscripts = .error e →
      env.ytdlp.extractInfo = .error e' →
      getTranscript env url languages = .ok none) := by
  constructor
  · unfold getTranscript
    match hx : extractVideoId url with
    | none => exact ⟨none, rfl⟩
    | some v =>
      obtain ⟨o1, h1⟩ := fetchWithTranscriptApi_ok env.api
        (languages.getD ["es", "en", "es-419", "en-US"])
      rw [h1]
      match o1 with
      | some r => exact ⟨some r, rfl⟩
      | none =>
        obtain ⟨o2, h2⟩ := fetchWithYtdlp_ok env.ytdlp
          (languages.getD ["es", "en", "es-419", "en-US"])
        exact ⟨o2, h2⟩
  · intro e e' h1 h2
    unfold getTranscript
    match hx : extractVideoId url with
    | none => rfl
    | some v =>
      have hA : fetchWithTranscriptApi env.api
          (languages.getD ["es", "en", "es-419", "en-US"]) = .ok none := by
        unfold fetchWithTranscriptApi
        rw [h1]
        rfl
      have hB : fetchWithYtdlp env.ytdlp
          (languages.getD ["es", "en", "es-419", "en-US"]) = .ok none := by
        unfold fetchWithYtdlp
        rw [h2]
        rfl
      rw [hA]
      exact hB

/-- Witness for C2: both tiers raise a network error and the call still
returns `ok None`. -/
theorem getTranscript_never_raises_witness :
    getTranscript
      { api := { listTranscripts := .error .netError, fetchData := .ok [] }
        ytdlp := { extractInfo := .error .netError, fetchUrl := .ok "" } }
      "https://youtu.be/dQw4w9WgXcQ" none = .ok none :=
  (getTranscript_never_raises _ _ none).2 .netError .netError rfl rfl

/-! ## Lemmas on the id-pattern matchers -/

theorem takeGroup_full : ∀ (g r : List Char), g.all isIdChar = true →
    takeGroup g.length (g ++ r) = some (g, r)
  | [], r, _ => rfl
  | c :: t, r, h => by
    simp only [List.all_cons, Bool.and_eq_true] at h
    show takeGroup (t.length + 1) (c :: (t ++ r)) = some (c :: t, r)
    unfold takeGroup
    rw [if_pos h.1, takeGroup_full t r h.2]
    rfl

theorem takeGroup_out : ∀ (n : Nat) (l g r : List Char),
    takeGroup n l = some (g, r) →
    g.length = n ∧ g.all isIdChar = true ∧ l = g ++ r
  | 0, l, g, r, h => by
    simp only [takeGroup, Option.some.injEq, Prod.mk.injEq] at h
    simp [← h.1, ← h.2]
  | n + 1, [], g, r, h => by simp [takeGroup] at h
  | n + 1, c :: t, g, r, h => by
    simp only [takeGroup] at h
    by_cases hc : isIdChar c = true
    · rw [if_pos hc] at h
      match ht : takeGroup n t with
      | none => rw [ht] at h; simp at h
      | some (g', r') =>
        rw [ht] at h
        have h2 : some ((c :: g', r') : List Char × List Char) = some (g, r) := h
        cases h2
        obtain ⟨hl, hall, heq⟩ := takeGroup_out n t g' _ ht
        exact ⟨by simp [hl], by simp [List.all_cons, hc, hall], by simp [heq]⟩
    · rw [if_neg hc] at h; simp at h

theorem dropLit_self : ∀ (lit r : List Char), dropLit lit (lit ++ r) = some r
  | [], r => rfl
  | c :: t, r => by
    show dropLit (c :: t) (c :: (t ++ r)) = some r
    unfold dropLit
    rw [if_pos (beq_self_eq_true c)]
    exact dropLit_self t r

theorem dropLit_isPre : ∀ (lit l r : List Char),
    dropLit lit l = some r → isPre lit l = true
  | [], l, r, _ => rfl
  | c :: t, [], r, h => by simp [dropLit] at h
  | c :: t, b :: bs, r, h => by
    simp only [dropLit] at h
    by_cases hb : b == c
    · rw [if_pos hb] at h
      simp only [isPre, Bool.and_eq_true]
      exact ⟨by simpa [BEq.comm] using hb, dropLit_isPre t bs r h⟩
    · rw [if_neg hb] at h; exact absurd h (by simp)

theorem searchLit_eq_none (lit : List Char) :
    ∀ l, containsSub lit l = false → searchLit lit l = none
  | [], _ => rfl
  | c :: t, h => by
    unfold containsSub at h
    rw [Bool.or_eq_false_iff] at h
    unfold searchLit
    have htry : tryMatchLit lit (c :: t) = none := by
      unfold tryMatchLit
      match hd : dropLit lit (c :: t) with
      | some r =>
        have := dropLit_isPre lit (c :: t) r hd
        rw [h.1] at this
        exact absurd this (by simp)
      | none => rfl
    rw [htry]
    exact searchLit_eq_none lit t h.2

theorem tryMatchLit_at (lit tok b : List Char)
    (hlen : tok.length = 11) (hall : tok.all isIdChar = true) :
    tryMatchLit lit (lit ++ (tok ++ b)) = some tok := by
  unfold tryMatchLit
  rw [dropLit_self]
  show Option.map (fun x => x.1) (takeGroup 11 (tok ++ b)) = some tok
  rw [← hlen, takeGroup_full tok b hall]
  rfl

theorem searchLit_isSome_cons (lit : List Char) (c : Char) (l : List Char)
    (h : (searchLit lit l).isSome) : (searchLit lit (c :: l)).isSome := by
  unfold searchLit
  match htry : tryMatchLit lit (c :: l) with
  | some g => simp
  | none => exact h

theorem searchLit_isSome_at (lit tok b : List Char)
    (hlen : tok.length = 11) (hall : tok.all isIdChar = true) :
    ∀ a : List Char, (searchLit lit (a ++ (lit ++ (tok ++ b)))).isSome
  | [] => by
    rw [List.nil_append]
    have hne : lit ++ (tok ++ b) ≠ [] := by
      intro hcontra
      rcases List.append_eq_nil.mp hcontra with ⟨-, h2⟩
      rcases List.append_eq_nil.mp h2 with ⟨h3, -⟩
      rw [h3] at hlen
      simp at hlen
    match hl : lit ++ (tok ++ b), hne with
    | c :: t, _ =>
      unfold searchLit
      have := tryMatchLit_at lit tok b hlen hall
      rw [hl] at this
      rw [this]
      simp
  | c :: a => by
    rw [List.cons_append]
    exact searchLit_isSome_cons lit c _ (searchLit_isSome_at lit tok b hlen hall a)

/-! ## C10: embed URLs are rejected by the downloader -/

/-- C10: every URL that contains `youtube.com/embed/` followed by an
11-character identifier but none of the four substrings accepted by
`validate_url` is rejected: `validate_url` returns `False`, so
`download_audio` and `get_video_info` fail with the invalid-URL error
for every environment, while `extract_video_id` still resolves an
identifier from the very same URL. -/
theorem embed_url_rejected (url : String) (a b tok : List Char)
    (hdecomp : url.data = a ++ ("youtube.com/embed/".data ++ (tok ++ b)))
    (hlen : tok.length = 11) (hall : tok.all isIdChar = true)
    (h1 : containsSub "youtube.com/watch".data url.data = false)
    (h2 : containsSub "youtu.be/".data url.data = false)
    (h3 : containsSub "youtube.com/shorts/".data url.data = false)
    (h4 : containsSub "youtube.com/live/".data url.data = false) :
    validateUrl url = false ∧
    (∀ env, (downloadAudio env url).1 = .error .invalidUrl) ∧
    (∀ envI, getVideoInfo envI url = .error .invalidUrl) ∧
    (extractVideoId url).isSome := by
  have hval : validateUrl url = false := by
    unfold validateUrl
    rw [h1, h2, h3, h4]
    rfl
  refine ⟨hval, ?_, ?_, ?_⟩
  · intro env
    unfold downloadAudio
    rw [hval]
    rfl
  · intro envI
    unfold getVideoInfo
    rw [hval]
    rfl
  · have hurlne : url ≠ "" := by
      intro hcontra
      rw [hcontra] at hdecomp
      have : ([] : List Char) = a ++ ("youtube.com/embed/".data ++ (tok ++ b)) :=
        hdecomp
      rcases List.append_eq_nil.mp this.symm with ⟨-, hrest⟩
      rcases List.append_eq_nil.mp hrest with ⟨hlitnil, -⟩
      exact absurd hlitnil (by decide)
    unfold extractVideoId
    rw [if_neg (by simpa using hurlne)]
    match hp1 : searchP1 url.data with
    | some g => simp
    | none =>
      rw [searchLit_eq_none _ _ h2]
      have hdecomp' : url.data
          = (a ++ "youtube.com/".data) ++ ("embed/".data ++ (tok ++ b)) := by
        rw [hdecomp]
        rw [show "youtube.com/embed/".data
              = "youtube.com/".data ++ "embed/".data from rfl]
        simp [List.append_assoc]
      have hsome : (searchLit "embed/".data url.data).isSome := by
        rw [hdecomp']
        exact searchLit_isSome_at _ tok b hlen hall _
      match he : searchLit "embed/".data url.data with
      | some g => simp
      | none => rw [he] at hsome; simp at hsome

/-! ## Output-shape lemmas for the id matchers (C9) -/

theorem finishP1_out (l g : List Char) (h : finishP1 l = some g) :
    g.length = 11 ∧ g.all isIdChar = true := by
  unfold finishP1 at h
  match ht : takeGroup 11 l with
  | none => rw [ht] at h; cases h
  | some (g', r) =>
    rw [ht] at h
    obtain ⟨hl, hall, -⟩ := takeGroup_out 11 l g' r ht
    match r with
    | [] =>
      have h2 : some g' = some g := h
      cases h2
      exact ⟨hl, hall⟩
    | c :: t =>
      have h2 : (if (c == '?' || c == '&') = true then some g'
          else if dollarEnd (c :: t) = true then some g' else none)
          = some g := h
      by_cases hc : (c == '?' || c == '&') = true
      · rw [if_pos hc] at h2
        cases h2
        exact ⟨hl, hall⟩
      · rw [if_neg hc] at h2
        by_cases hdl : dollarEnd (c :: t) = true
        · rw [if_pos hdl] at h2
          cases h2
          exact ⟨hl, hall⟩
        · rw [if_neg hdl] at h2
          cases h2

theorem tryMatchP1_out (c : Char) (t g : List Char)
    (h : tryMatchP1 c t = some g) :
    g.length = 11 ∧ g.all isIdChar = true := by
  unfold tryMatchP1 at h
  by_cases hv : (c == 'v') = true
  · rw [if_pos hv] at h
    match t with
    | [] => cases h
    | d :: rest =>
      have h2 : (if (d == '=') = true then finishP1 rest else none)
          = some g := h
      by_cases hd : (d == '=') = true
      · rw [if_pos hd] at h2
        exact finishP1_out rest g h2
      · rw [if_neg hd] at h2
        cases h2
  · rw [if_neg hv] at h
    by_cases hs : (c == '/') = true
    · rw [if_pos hs] at h
      exact finishP1_out t g h
    · rw [if_neg hs] at h
      cases h

theorem searchP1_out : ∀ l g : List Char, searchP1 l = some g →
    g.length = 11 ∧ g.all isIdChar = true
  | [], g, h => by cases h
  | c :: t, g, h => by
    unfold searchP1 at h
    match htry : tryMatchP1 c t with
    | some g' =>
      rw [htry] at h
      cases h
      exact tryMatchP1_out c t _ htry
    | none =>
      rw [htry] at h
      exact searchP1_out t g h

theorem tryMatchLit_out (lit l g : List Char)
    (h : tryMatchLit lit l = some g) :
    g.length = 11 ∧ g.all isIdChar = true := by
  unfold tryMatchLit at h
  match hd : dropLit lit l with
  | none => rw [hd] at h; cases h
  | some rest =>
    rw [hd] at h
    have h1 : Option.map (fun x => x.1) (takeGroup 11 rest) = some g := h
    match ht : takeGroup 11 rest with
    | none => rw [ht] at h1; cases h1
    | some (g', r) =>
      rw [ht] at h1
      obtain ⟨hl, hall, -⟩ := takeGroup_out 11 rest g' r ht
      have h2 : some g' = some g := h1
      cases h2
      exact ⟨hl, hall⟩

theorem searchLit_out (lit : List Char) : ∀ l g : List Char,
    searchLit lit l = some g → g.length = 11 ∧ g.all isIdChar = true
  | [], g, h => by cases h
  | c :: t, g, h => by
    unfold searchLit at h
    match htry : tryMatchLit lit (c :: t) with
    | some g' =>
      rw [htry] at h
      cases h
      exact tryMatchLit_out lit (c :: t) _ htry
    | none =>
      rw [htry] at h
      exact searchLit_out lit t g h

theorem dollarEnd_out : ∀ r : List Char, dollarEnd r = true →
    r = [] ∨ r = ['\n']
  | [], _ => Or.inl rfl
  | c :: t, h => by
    unfold dollarEnd at h
    rw [Bool.and_eq_true] at h
    have hc : c = '\n' := by simpa using h.1
    have ht : t = [] := by simpa using h.2
    subst hc ht
    exact Or.inr rfl

theorem bareIdMatch_out (l : List Char) (h : bareIdMatch l = true) :
    ∃ g, (g.length = 11 ∧ g.all isIdChar = true) ∧
      (l = g ∨ l = g ++ ['\n']) := by
  unfold bareIdMatch at h
  match ht : takeGroup 11 l with
  | none => rw [ht] at h; cases h
  | some (g, r) =>
    rw [ht] at h
    obtain ⟨hl, hall, heq⟩ := takeGroup_out 11 l g r ht
    refine ⟨g, ⟨hl, hall⟩, ?_⟩
    rcases dollarEnd_out r h with rfl | rfl
    · left; simpa using heq
    · right; exact heq

/-! ## C9: shape of every resolved identifier -/

/-- C9 (amended): `extract_video_id` is total and returns `None` or a
string of exactly 11 characters over `[0-9A-Za-z_-]` — except on an
input that is itself 11 such characters followed by one trailing
newline, which the bare-identifier pattern accepts (Python's `$`
matches before a final newline) and which is returned verbatim, 12
characters long. -/
theorem extractVideoId_shape (url s : String)
    (h : extractVideoId url = some s) :
    (s.length = 11 ∧ s.data.all isIdChar = true) ∨
    (s = url ∧ ∃ g, url.data = g ++ ['\n'] ∧ g.length = 11 ∧
      g.all isIdChar = true) := by
  unfold extractVideoId at h
  by_cases hu : (url == "") = true
  · rw [if_pos hu] at h; cases h
  · rw [if_neg hu] at h
    match h1 : searchP1 url.data with
    | some g =>
      rw [h1] at h
      cases h
      obtain ⟨hl, hall⟩ := searchP1_out url.data g h1
      exact Or.inl ⟨hl, hall⟩
    | none =>
      rw [h1] at h
      match h2 : searchLit "youtu.be/".data url.data with
      | some g =>
        rw [h2] at h
        cases h
        obtain ⟨hl, hall⟩ := searchLit_out _ url.data g h2
        exact Or.inl ⟨hl, hall⟩
      | none =>
        rw [h2] at h
        match h3 : searchLit "embed/".data url.data with
        | some g =>
          rw [h3] at h
          cases h
          obtain ⟨hl, hall⟩ := searchLit_out _ url.data g h3
          exact Or.inl ⟨hl, hall⟩
        | none =>
          rw [h3] at h
          match h4 : searchLit "shorts/".data url.data with
          | some g =>
            rw [h4] at h
            cases h
            obtain ⟨hl, hall⟩ := searchLit_out _ url.data g h4
            exact Or.inl ⟨hl, hall⟩
          | none =>
            rw [h4] at h
            match h5 : searchLit "live/".data url.data with
            | some g =>
              rw [h5] at h
              cases h
              obtain ⟨hl, hall⟩ := searchLit_out _ url.data g h5
              exact Or.inl ⟨hl, hall⟩
            | none =>
              rw [h5] at h
              by_cases hb : bareIdMatch url.data = true
              · rw [if_pos hb] at h
                cases h
                obtain ⟨g, ⟨hl, hall⟩, hcase⟩ := bareIdMatch_out url.data hb
                rcases hcase with hg | hg
                · refine Or.inl ⟨?_, by rw [hg]; exact hall⟩
                  show url.data.length = 11
                  rw [hg]
                  exact hl
                · exact Or.inr ⟨rfl, g, hg, hl, hall⟩
              · rw [if_neg hb] at h
                cases h

/-- Witness for C9 at a plain 11-character identifier. -/
theorem extractVideoId_shape_witness :
    (("dQw4w9WgXcQ" : String).length = 11 ∧
      ("dQw4w9WgXcQ" : String).data.all isIdChar = true) ∨
    (("dQw4w9WgXcQ" : String) = "dQw4w9WgXcQ" ∧
      ∃ g, ("dQw4w9WgXcQ" : String).data = g ++ ['\n'] ∧ g.length = 11 ∧
        g.all isIdChar = true) :=
  extractVideoId_shape "dQw4w9WgXcQ" "dQw4w9WgXcQ" (by decide)

/-- C9 counterexample: the input `"abcdefghijk\n"` (11 identifier
characters plus a newline) is returned verbatim — a 12-character
return value containing a character outside `[0-9A-Za-z_-]`, because
the bare-identifier `re.match` accepts a trailing newline via `$`. -/
theorem extractVideoId_newline_counterexample :
    extractVideoId "abcdefghijk\n" = some "abcdefghijk\n" ∧
    ("abcdefghijk\n" : String).length = 12 :=
  ⟨by decide, by decide⟩

/-- Witness for C10 at the canonical embed URL. -/
theorem embed_url_rejected_witness :
    validateUrl "https://www.youtube.com/embed/dQw4w9WgXcQ" = false ∧
    (downloadAudio
        { infoOutcome := .ok none, mp3Exists := false, globFiles := [],
          fileSize := 0 }
        "https://www.youtube.com/embed/dQw4w9WgXcQ").1 = .error .invalidUrl ∧
    getVideoInfo (.ok none) "https://www.youtube.com/embed/dQw4w9WgXcQ"
      = .error .invalidUrl ∧
    (extractVideoId "https://www.youtube.com/embed/dQw4w9WgXcQ").isSome := by
  have h := embed_url_rejected "https://www.youtube.com/embed/dQw4w9WgXcQ"
    "https://www.".data "".data "dQw4w9WgXcQ".data
    (by decide) (by decide) (by decide) (by decide) (by decide) (by decide)
    (by decide)
  exact ⟨h.1, h.2.1 _, h.2.2.1 _, h.2.2.2⟩

/-! ## C8: consistent resolution across URL shapes -/

theorem extract_of_searchP1 (url : String) (g : List Char)
    (h : searchP1 url.data = some g) :
    extractVideoId url = some (String.mk g) := by
  unfold extractVideoId
  by_cases hu : (url == "") = true
  · have hu' : url = "" := by simpa using hu
    subst hu'
    have h' : (none : Option (List Char)) = some g := h
    cases h'
  · rw [if_neg hu, h]

theorem searchP1_none_of_id : ∀ l : List Char, l.all isIdChar = true →
    searchP1 l = none
  | [], _ => rfl
  | c :: t, h => by
    rw [List.all_cons, Bool.and_eq_true] at h
    unfold searchP1
    have htry : tryMatchP1 c t = none := by
      unfold tryMatchP1
      by_cases hv : (c == 'v') = true
      · rw [if_pos hv]
        cases t with
        | nil => rfl
        | cons d rest =>
          have h2 := h.2
          rw [List.all_cons, Bool.and_eq_true] at h2
          have hd : (d == '=') = false := by
            by_contra hcon
            rw [Bool.not_eq_false] at hcon
            have hde : d = '=' := by simpa using hcon
            rw [hde] at h2
            exact absurd h2.1 (by decide)
          show (if (d == '=') = true then finishP1 rest else none) = none
          rw [hd]
          simp
      · rw [if_neg hv]
        have hs : (c == '/') = false := by
          by_contra hcon
          rw [Bool.not_eq_false] at hcon
          have hcs : c = '/' := by simpa using hcon
          rw [hcs] at h
          exact absurd h.1 (by decide)
        rw [hs]
        simp
    rw [htry]
    exact searchP1_none_of_id t h.2

theorem isPre_subset : ∀ lit l : List Char, isPre lit l = true →
    ∀ x ∈ lit, x ∈ l
  | [], l, _, x, hx => absurd hx (List.not_mem_nil x)
  | c :: t, [], h, x, hx => by cases h
  | c :: t, b :: bs, h, x, hx => by
    rw [isPre, Bool.and_eq_true] at h
    have hcb : c = b := by simpa using h.1
    rcases List.mem_cons.mp hx with rfl | hxt
    · rw [hcb]; exact List.mem_cons_self b bs
    · exact List.mem_cons_of_mem b (isPre_subset t bs h.2 x hxt)

theorem containsSub_false_of_bad (lit : List Char) (x : Char)
    (hx : x ∈ lit) (hbad : isIdChar x = false) :
    ∀ l : List Char, l.all isIdChar = true → containsSub lit l = false
  | [], _ => by
    unfold containsSub
    match lit, hx with
    | c :: t, _ => rfl
  | c :: t, h => by
    rw [List.all_cons, Bool.and_eq_true] at h
    unfold containsSub
    rw [containsSub_false_of_bad lit x hx hbad t h.2, Bool.or_false]
    by_contra hcon
    rw [Bool.not_eq_false] at hcon
    have hmem := isPre_subset lit (c :: t) hcon x hx
    rcases List.mem_cons.mp hmem with rfl | hmemt
    · rw [h.1] at hbad; cases hbad
    · have := List.all_eq_true.mp h.2 x hmemt
      rw [this] at hbad; cases hbad

/-- C8: resolution is consistent across URL shapes.  For every
11-character identifier token over `[0-9A-Za-z_-]`, the watch,
short-link, embed, shorts and live URL shapes built from it, and the
bare token itself, all resolve to that same token; the bare token is
returned verbatim.  (The embedding is a pure function, so the
no-side-effects part of the claim holds by construction.) -/
theorem extractVideoId_consistent (tok : String) (hlen : tok.length = 11)
    (hall : tok.data.all isIdChar = true) :
    extractVideoId ("https://www.youtube.com/watch?v=" ++ tok) = some tok ∧
    extractVideoId ("https://youtu.be/" ++ tok) = some tok ∧
    extractVideoId ("https://www.youtube.com/embed/" ++ tok) = some tok ∧
    extractVideoId ("https://www.youtube.com/shorts/" ++ tok) = some tok ∧
    extractVideoId ("https://www.youtube.com/live/" ++ tok) = some tok ∧
    extractVideoId tok = some tok := by
  have hlen' : tok.data.length = 11 := hlen
  have hTG : takeGroup 11 tok.data = some (tok.data, []) := by
    have h := takeGroup_full tok.data [] hall
    rwa [List.append_nil, hlen'] at h
  have hfin : finishP1 tok.data = some tok.data := by
    unfold finishP1
    rw [hTG]
  have heta : String.mk tok.data = tok := rfl
  refine ⟨?_, ?_, ?_, ?_, ?_, ?_⟩
  · have hsearch : searchP1 ("https://www.youtube.com/watch?v=".data ++ tok.data)
        = some tok.data := by
      show (match finishP1 tok.data with
            | some g => some g
            | none => searchP1 ('=' :: tok.data)) = some tok.data
      rw [hfin]
    have h := extract_of_searchP1 ("https://www.youtube.com/watch?v=" ++ tok)
      tok.data (by rw [String.data_append]; exact hsearch)
    rwa [heta] at h
  · have hsearch : searchP1 ("https://youtu.be/".data ++ tok.data)
        = some tok.data := by
      show (match finishP1 tok.data with
            | some g => some g
            | none => searchP1 tok.data) = some tok.data
      rw [hfin]
    have h := extract_of_searchP1 ("https://youtu.be/" ++ tok)
      tok.data (by rw [String.data_append]; exact hsearch)
    rwa [heta] at h
  · have hsearch : searchP1 ("https://www.youtube.com/embed/".data ++ tok.data)
        = some tok.data := by
      show (match finishP1 tok.data with
            | some g => some g
            | none => searchP1 tok.data) = some tok.data
      rw [hfin]
    have h := extract_of_searchP1 ("https://www.youtube.com/embed/" ++ tok)
      tok.data (by rw [String.data_append]; exact hsearch)
    rwa [heta] at h
  · have hsearch : searchP1 ("https://www.youtube.com/shorts/".data ++ tok.data)
        = some tok.data := by
      show (match finishP1 tok.data with
            | some g => some g
            | none => searchP1 tok.data) = some tok.data
      rw [hfin]
    have h := extract_of_searchP1 ("https://www.youtube.com/shorts/" ++ tok)
      tok.data (by rw [String.data_append]; exact hsearch)
    rwa [heta] at h
  · have hsearch : searchP1 ("https://www.youtube.com/live/".data ++ tok.data)
        = some tok.data := by
      show (match finishP1 tok.data with
            | some g => some g
            | none => searchP1 tok.data) = some tok.data
      rw [hfin]
    have h := extract_of_searchP1 ("https://www.youtube.com/live/" ++ tok)
      tok.data (by rw [String.data_append]; exact hsearch)
    rwa [heta] at h
  · unfold extractVideoId
    have hne : (tok == "") = false := by
      by_contra hcon
      rw [Bool.not_eq_false] at hcon
      have htok : tok = "" := by simpa using hcon
      rw [htok] at hlen'
      cases hlen'
    rw [if_neg (by simp [hne])]
    rw [searchP1_none_of_id tok.data hall]
    rw [searchLit_eq_none _ _
      (containsSub_false_of_bad "youtu.be/".data '.' (by decide) (by decide)
        tok.data hall)]
    rw [searchLit_eq_none _ _
      (containsSub_false_of_bad "embed/".data '/' (by decide) (by decide)
        tok.data hall)]
    rw [searchLit_eq_none _ _
      (containsSub_false_of_bad "shorts/".data '/' (by decide) (by decide)
        tok.data hall)]
    rw [searchLit_eq_none _ _
      (containsSub_false_of_bad "live/".data '/' (by decide) (by decide)
        tok.data hall)]
    have hbare : bareIdMatch tok.data = true := by
      unfold bareIdMatch
      rw [hTG]
      rfl
    rw [if_pos hbare]

/-- Witness for C8 at the identifier `dQw4w9WgXcQ`. -/
theorem extractVideoId_consistent_witness :
    extractVideoId ("https://www.youtube.com/watch?v=" ++ "dQw4w9WgXcQ")
      = some "dQw4w9WgXcQ" ∧
    extractVideoId ("https://youtu.be/" ++ "dQw4w9WgXcQ") = some "dQw4w9WgXcQ" ∧
    extractVideoId ("https://www.youtube.com/embed/" ++ "dQw4w9WgXcQ")
      = some "dQw4w9WgXcQ" ∧
    extractVideoId ("https://www.youtube.com/shorts/" ++ "dQw4w9WgXcQ")
      = some "dQw4w9WgXcQ" ∧
    extractVideoId ("https://www.youtube.com/live/" ++ "dQw4w9WgXcQ")
      = some "dQw4w9WgXcQ" ∧
    extractVideoId "dQw4w9WgXcQ" = some "dQw4w9WgXcQ" :=
  extractVideoId_consistent "dQw4w9WgXcQ" (by decide) (by decide)

/-! ## Parser invariants (C5, C6) -/

theorem chain_rel_reverse {α : Type} {R : α → α → Prop}
    (hsymm : ∀ a b, R a b → R b a) (l : List α) (h : List.Chain' R l) :
    List.Chain' R l.reverse := by
  rw [List.chain'_reverse]
  exact h.imp hsymm

theorem dedupAdj_go_chain :
    ∀ (l acc : List (List Char)), List.Chain' (· ≠ ·) acc →
      List.Chain' (· ≠ ·) (dedupAdj.go acc l)
  | [], acc, h => chain_rel_reverse (fun a b hab => hab.symm) acc h
  | p :: t, acc, h => by
    unfold dedupAdj.go
    cases acc with
    | nil => exact dedupAdj_go_chain t [p] (List.chain'_singleton p)
    | cons a rest =>
      show List.Chain' (· ≠ ·)
        (if (a != p) = true then dedupAdj.go (p :: a :: rest) t
         else dedupAdj.go (a :: rest) t)
      by_cases hne : (a != p) = true
      · rw [if_pos hne]
        exact dedupAdj_go_chain t (p :: a :: rest)
          (List.chain'_cons.mpr ⟨(bne_iff_ne.mp hne).symm, h⟩)
      · rw [if_neg hne]
        exact dedupAdj_go_chain t (a :: rest) h

theorem dedupAdj_chain (parts : List (List Char)) :
    List.Chain' (· ≠ ·) (dedupAdj parts) :=
  dedupAdj_go_chain parts [] List.chain'_nil

theorem parseAuxGo_chain : ∀ (fuel : Nat) (lines : List (List Char))
    (accSegs : List TranscriptionSegment) (accParts : List (List Char)),
    List.Chain' (fun a b => a.text ≠ b.text) accSegs →
    List.Chain' (fun a b => a.text ≠ b.text)
      (parseAuxGo fuel lines accSegs accParts).1
  | 0, _, accSegs, _, h =>
    chain_rel_reverse (fun _ _ hab => hab.symm) accSegs h
  | _ + 1, [], accSegs, _, h =>
    chain_rel_reverse (fun _ _ hab => hab.symm) accSegs h
  | fuel + 1, line :: rest, accSegs, accParts, h => by
    unfold parseAuxGo
    split
    · exact parseAuxGo_chain fuel rest accSegs accParts h
    next g1 g2 hts =>
      split
      next texts rem hct =>
        split
        next hte => exact parseAuxGo_chain fuel rem accSegs accParts h
        next hte =>
          split
          next hkn =>
            apply parseAuxGo_chain
            rw [List.chain'_cons']
            refine ⟨?_, h⟩
            intro y hy
            cases accSegs with
            | nil => simp at hy
            | cons s srest =>
              have hys : s = y := by simpa using hy
              have hst : s.text ≠ String.mk (parseAuxGo.joinSpace texts) := by
                simpa [keepNew, bne_iff_ne] using hkn
              rw [← hys]
              exact hst.symm
          next hkn =>
            exact parseAuxGo_chain fuel rem accSegs accParts h

theorem collectText_suffix : ∀ lines : List (List Char),
    List.IsSuffix (collectText lines).2 lines
  | [] => List.suffix_refl []
  | line :: rest => by
    unfold collectText
    split
    · exact List.suffix_cons line rest
    · split
      · exact List.suffix_refl _
      · split
        · exact (collectText_suffix rest).trans (List.suffix_cons line rest)
        · exact (collectText_suffix rest).trans (List.suffix_cons line rest)

/-- The start time of every cue header of the markup, in order of
appearance, whether or not the cue produced a segment (blank-text and
duplicate cues are also listed).  A line is a cue header exactly when
`time_pattern.search` succeeds on its stripped form. -/
def cueStartsLines (lines : List (List Char)) : List ℚ :=
  lines.filterMap fun l =>
    (timeSearch (pyStrip l)).map fun g => parseTimeStr (replComma g.1)

/-- Cue-header start times of a raw markup string. -/
def cueStarts (content : String) : List ℚ :=
  cueStartsLines (splitLines content.data)

theorem parseAuxGo_starts_sublist : ∀ (fuel : Nat) (lines : List (List Char))
    (accSegs : List TranscriptionSegment) (accParts : List (List Char)),
    List.Sublist ((parseAuxGo fuel lines accSegs accParts).1.map (·.start))
      ((accSegs.reverse.map (·.start)) ++ cueStartsLines lines)
  | 0, lines, accSegs, accParts =>
    List.sublist_append_left _ _
  | _ + 1, [], accSegs, accParts =>
    List.sublist_append_left _ _
  | fuel + 1, line :: rest, accSegs, accParts => by
    unfold parseAuxGo
    split
    next hts =>
      have hcue : cueStartsLines (line :: rest) = cueStartsLines rest := by
        unfold cueStartsLines
        rw [List.filterMap_cons_none]
        rw [hts]
        rfl
      rw [hcue]
      exact parseAuxGo_starts_sublist fuel rest accSegs accParts
    next g1 g2 hts =>
      have hcue : cueStartsLines (line :: rest)
          = parseTimeStr (replComma g1) :: cueStartsLines rest := by
        unfold cueStartsLines
        rw [List.filterMap_cons_some]
        rw [hts]
        rfl
      rw [hcue]
      split
      next texts rem hct =>
        have hrem : List.Sublist (cueStartsLines rem) (cueStartsLines rest) := by
          have hsuf := collectText_suffix rest
          rw [hct] at hsuf
          exact (hsuf.sublist).filterMap _
        split
        next hte =>
          exact (parseAuxGo_starts_sublist fuel rem accSegs accParts).trans
            ((hrem.trans (List.sublist_cons_self _ _)).append_left _)
        next hte =>
          split
          next hkn =>
            have ih := parseAuxGo_starts_sublist fuel rem
              ({ start := parseTimeStr (replComma g1)
                 stop := parseTimeStr (replComma g2)
                 text := String.mk (parseAuxGo.joinSpace texts) } :: accSegs)
              (parseAuxGo.joinSpace texts :: accParts)
            rw [List.reverse_cons, List.map_append, List.append_assoc] at ih
            simp only [List.map_cons, List.map_nil, List.singleton_append] at ih
            exact ih.trans ((hrem.cons₂ _).append_left _)
          next hkn =>
            exact (parseAuxGo_starts_sublist fuel rem accSegs accParts).trans
              ((hrem.trans (List.sublist_cons_self _ _)).append_left _)

theorem parseVttContent_inv (content lang : String) (r : TranscriptionResult)
    (h : parseVttContent content lang = some r) :
    r.segments = (parseAuxGo (splitLines content.data).length
        (splitLines content.data) [] []).1 ∧
    r.segments.isEmpty = false ∧
    r.text = String.mk (parseAuxGo.joinSpace (dedupAdj
        (parseAuxGo (splitLines content.data).length
          (splitLines content.data) [] []).2)) ∧
    r.duration = (r.segments.getLastD ⟨0, 0, ""⟩).stop := by
  unfold parseVttContent at h
  by_cases he : (parseAuxGo (splitLines content.data).length
      (splitLines content.data) [] []).1.isEmpty = true
  · rw [if_pos he] at h
    cases h
  · rw [if_neg he] at h
    cases h
    exact ⟨rfl, by simpa using he, rfl, rfl⟩

/-! ## C5: no consecutive duplicate segments -/

/-- C5: for every markup input, the parser never emits two consecutive
segments with identical cleaned text (the guard on `segments[-1].text`
suppresses karaoke-style redraws, even across three or more repeated
cues), and the flat joined text is the space-join of the parser's own
`unique_parts` list — the consecutive dedup of its `full_text_parts`
accumulator — in which no two consecutive entries are equal. -/
theorem parseVtt_no_consecutive_duplicates (content lang : String)
    (r : TranscriptionResult) (h : parseVttContent content lang = some r) :
    List.Chain' (fun a b => a.text ≠ b.text) r.segments ∧
    List.Chain' (· ≠ ·) (dedupAdj
      (parseAuxGo (splitLines content.data).length
        (splitLines content.data) [] []).2) ∧
    r.text = String.mk (parseAuxGo.joinSpace (dedupAdj
      (parseAuxGo (splitLines content.data).length
        (splitLines content.data) [] []).2)) := by
  obtain ⟨hsegs, -, htext, -⟩ := parseVttContent_inv content lang r h
  refine ⟨?_, dedupAdj_chain _, htext⟩
  rw [hsegs]
  exact parseAuxGo_chain _ _ [] [] List.chain'_nil

/-- A karaoke-style markup that repeats one line across three
consecutive cues. -/
def demoKaraoke : String :=
  "00:00:00.000 --> 00:00:02.000\nrepeat me\n\n00:00:02.000 --> 00:00:04.000\nrepeat me\n\n00:00:04.000 --> 00:00:06.000\nrepeat me\n"

/-- The transcript the parser produces for `demoKaraoke`. -/
def demoKaraokeResult : TranscriptionResult :=
  { text := "repeat me"
    segments := [{ start := 0, stop := 2, text := "repeat me" }]
    language := "en"
    duration := 2 }

/-- Witness for C5 on the three-fold karaoke repetition. -/
theorem parseVtt_no_consecutive_duplicates_witness :
    List.Chain' (fun a b => a.text ≠ b.text) demoKaraokeResult.segments ∧
    List.Chain' (· ≠ ·) (dedupAdj
      (parseAuxGo (splitLines demoKaraoke.data).length
        (splitLines demoKaraoke.data) [] []).2) ∧
    demoKaraokeResult.text = String.mk (parseAuxGo.joinSpace (dedupAdj
      (parseAuxGo (splitLines demoKaraoke.data).length
        (splitLines demoKaraoke.data) [] []).2)) :=
  parseVtt_no_consecutive_duplicates demoKaraoke "en" demoKaraokeResult
    (by decide)

/-! ## C6: segment order and duration -/

/-- C6 counterexample: the parser preserves markup order and performs
no sorting, so a markup whose second cue starts before its first
produces segments with decreasing start times. -/
theorem parseVtt_unsorted_counterexample :
    ((parseVttContent
        "00:00:10.000 --> 00:00:11.000\nb\n\n00:00:00.000 --> 00:00:01.000\na\n"
        "en").map fun r => r.segments.map (·.start)) = some [(10 : ℚ), 0] ∧
    ¬ List.Pairwise (· ≤ ·) [(10 : ℚ), 0] :=
  ⟨by decide, by decide⟩

/-- C6 (amended): whenever the parser returns a result, its `duration`
equals the `end` of the last segment; and the segments' start times are
non-decreasing provided the markup's cue headers appear with
non-decreasing start times (the parser emits segments in markup order,
a subsequence of the cue headers, and never reorders them). -/
theorem parseVtt_sorted_duration (content lang : String)
    (r : TranscriptionResult) (h : parseVttContent content lang = some r) :
    (List.Pairwise (· ≤ ·) (cueStarts content) →
      List.Pairwise (· ≤ ·) (r.segments.map (·.start))) ∧
    ∃ lastSeg, r.segments.getLast? = some lastSeg ∧
      r.duration = lastSeg.stop := by
  obtain ⟨hsegs, hne, -, hdur⟩ := parseVttContent_inv content lang r h
  constructor
  · intro hp
    have hsub := parseAuxGo_starts_sublist (splitLines content.data).length
      (splitLines content.data) [] []
    rw [← hsegs] at hsub
    simp only [List.reverse_nil, List.map_nil, List.nil_append] at hsub
    exact hp.sublist hsub
  · have hne' : r.segments ≠ [] := by
      intro hcon
      rw [hcon] at hne
      cases hne
    match hl : r.segments.getLast? with
    | none =>
      exact absurd (List.getLast?_eq_none_iff.mp hl) hne'
    | some lastSeg =>
      refine ⟨lastSeg, rfl, ?_⟩
      rw [List.getLastD_eq_getLast?, hl] at hdur
      exact hdur

/-- An in-order markup used as the C6 witness. -/
def demoOrdered : String :=
  "00:00:00.000 --> 00:00:01.000\na\n\n00:00:01.000 --> 00:00:02.000\nb\n"

/-- The transcript the parser produces for `demoOrdered`. -/
def demoOrderedResult : TranscriptionResult :=
  { text := "a b"
    segments := [{ start := 0, stop := 1, text := "a" },
                 { start := 1, stop := 2, text := "b" }]
    language := "en"
    duration := 2 }

/-- Witness for C6 on an in-order two-cue markup. -/
theorem parseVtt_sorted_duration_witness :
    List.Pairwise (· ≤ ·) (demoOrderedResult.segments.map (·.start)) ∧
    ∃ lastSeg, demoOrderedResult.segments.getLast? = some lastSeg ∧
      demoOrderedResult.duration = lastSeg.stop :=
  ⟨(parseVtt_sorted_duration demoOrdered "en" demoOrderedResult (by decide)).1
      (by decide),
    (parseVtt_sorted_duration demoOrdered "en" demoOrderedResult (by decide)).2⟩

end MiMente
